import Mathlib

/-!
Verification development for the SeismicPro QC metrics core:
shallow embedding (over ℚ, with `Option ℚ` as the not-a-number sentinel)
of `src/seismicpro/src/seismic_metrics.py` and `src/seismicpro/qc/utils.py`,
together with theorems settling the frozen specification claims.
-/

namespace SeismicPro

/-- Arithmetic mean of a list of rationals (`np.mean`); 0 on the empty list
(numpy would yield NaN there; all uses below guard emptiness). -/
def listMean (l : List ℚ) : ℚ := l.sum / l.length

/-- Minimum of a list (`ndarray.min`); 0 on the empty list. -/
def listMin : List ℚ → ℚ
  | [] => 0
  | [a] => a
  | a :: b :: t => min a (listMin (b :: t))

/-- Maximum of a list (`ndarray.max`); 0 on the empty list. -/
def listMax : List ℚ → ℚ
  | [] => 0
  | [a] => a
  | a :: b :: t => max a (listMax (b :: t))

/-! ## MetricsMap (`seismic_metrics.py`, class `MetricsMap`)

A metric sample is `(x, y, value)`.  `MetricsMap.__init__` receives parallel
sequences `coords` and `metrics`; it deduplicates `coords` keeping the first
occurrence in insertion order (`np.unique(coords, axis=0, return_index=True)`
followed by `unique_coords[np.argsort(position)]`), and then builds
`_maps_list = [[*coord, metric] for coord, metric in zip(self.coords, self.metrics)]`
— note that the *deduplicated* coordinates are zipped with the *original*
metrics list, truncating at the shorter one as Python `zip` does. -/

/-- Accumulator form of first-occurrence deduplication (`seen` holds the
coordinates already kept). -/
def firstOccAux : List (ℚ × ℚ) → List (ℚ × ℚ) → List (ℚ × ℚ)
  | [], _ => []
  | c :: t, seen =>
      if c ∈ seen then firstOccAux t seen else c :: firstOccAux t (c :: seen)

/-- First occurrences of each distinct coordinate, in insertion order: the
result of `np.unique(coords, axis=0, return_index=True)` re-ordered by
`np.argsort(position)`. -/
def firstOccurrences (l : List (ℚ × ℚ)) : List (ℚ × ℚ) := firstOccAux l []

/-- The sample list `_maps_list` built by `MetricsMap.__init__`:
deduplicated coordinates zipped with the (un-deduplicated) metrics. -/
def buildSamples (coords : List (ℚ × ℚ)) (metrics : List ℚ) :
    List (ℚ × ℚ × ℚ) :=
  ((firstOccurrences coords).zip metrics).map (fun p => (p.1.1, p.1.2, p.2))

/-- `MetricsMap.append`: `self._maps_list.extend(metrics._maps_list)`. -/
def appendMaps (a b : List (ℚ × ℚ × ℚ)) : List (ℚ × ℚ × ℚ) := a ++ b

/-! ## Bin grid (`MetricsMap.construct_metrics_map`)

The code computes `range_x = np.arange(coords_x.min(), coords_x.max() + bin_size,
bin_size)` (likewise `range_y`), fills a `(len(range_y), len(range_x))` grid with
NaN, and for each cell `(i, j)` selects the samples with
`coords_x - range_x[i] >= 0 & coords_x - range_x[i] < bin_size` (and the same on
`y`); a cell with a non-empty selection gets the mean of the selected metrics.
NaN cells are modelled as `none`. -/

/-- `np.arange(start, stop, step)` for `step > 0`:
`⌈(stop - start)/step⌉` values `start + k·step`. -/
def arange (start stop step : ℚ) : List ℚ :=
  (List.range (⌈(stop - start) / step⌉).toNat).map
    (fun k : ℕ => start + (k : ℚ) * step)

/-- x coordinates of the samples (`coords_x`). -/
def xsOf (samples : List (ℚ × ℚ × ℚ)) : List ℚ := samples.map (fun s => s.1)

/-- y coordinates of the samples (`coords_y`). -/
def ysOf (samples : List (ℚ × ℚ × ℚ)) : List ℚ := samples.map (fun s => s.2.1)

/-- `range_x` of `construct_metrics_map`. -/
def rangeX (samples : List (ℚ × ℚ × ℚ)) (b : ℚ) : List ℚ :=
  arange (listMin (xsOf samples)) (listMax (xsOf samples) + b) b

/-- `range_y` of `construct_metrics_map`. -/
def rangeY (samples : List (ℚ × ℚ × ℚ)) (b : ℚ) : List ℚ :=
  arange (listMin (ysOf samples)) (listMax (ysOf samples) + b) b

/-- One grid cell: the code's boolean mask and conditional mean.  `rx`, `ry`
are `range_x[i]`, `range_y[j]`. -/
def cellValue (samples : List (ℚ × ℚ × ℚ)) (b rx ry : ℚ) : Option ℚ :=
  let sel := samples.filter (fun s =>
    decide (0 ≤ s.1 - rx ∧ s.1 - rx < b ∧ 0 ≤ s.2.1 - ry ∧ s.2.1 - ry < b))
  if sel.length > 0 then some (listMean (sel.map (fun s => s.2.2))) else none

/-- The full grid, row `j` (over `range_y`) by column `i` (over `range_x`),
as built by the doubly-nested `prange` loop (cells are independent, so the
sequential map has the same value). -/
def constructMetricsMap (samples : List (ℚ × ℚ × ℚ)) (b : ℚ) :
    List (List (Option ℚ)) :=
  (rangeY samples b).map (fun ry =>
    (rangeX samples b).map (fun rx => cellValue samples b rx ry))

/-- The claim's description of a cell's sample set: `range_x[i] ≤ x <
range_x[i] + bin_size` and `range_y[j] ≤ y < range_y[j] + bin_size`. -/
def cellSamplesSpec (samples : List (ℚ × ℚ × ℚ)) (b rx ry : ℚ) :
    List (ℚ × ℚ × ℚ) :=
  samples.filter (fun s =>
    decide (rx ≤ s.1 ∧ s.1 < rx + b ∧ ry ≤ s.2.1 ∧ s.2.1 < ry + b))

/-! ## Horizon file parsing (`qc/utils.py`, `load_horizon`)

Per line: `re.sub('[a-zA-Z:]', ' ', line)`, then `re.sub(' +', ' ', line.strip())`,
skip the line if it is now empty, split on single spaces, and evaluate
`[int(line[0]), int(line[1]), float(line[-1])]` — `IndexError` when a subscript
is out of range, `ValueError` when a token does not parse.  Lines are chars;
numeric parsing models the Python literal grammar actually reachable here
(optional sign, digits, optional decimal point for `float`). -/

/-- `re.sub('[a-zA-Z:]', ' ', line)` on one character. -/
def cleanChar (c : Char) : Char := if c.isAlpha ∨ c = ':' then ' ' else c

/-- Python `str.strip` whitespace class (no newlines occur: lines come from
splitting on them). -/
def isPySpace (c : Char) : Bool :=
  c = ' ' ∨ c = '\t' ∨ c = '\n' ∨ c = '\r' ∨ c = '\x0b' ∨ c = '\x0c'

/-- Python `str.strip()`. -/
def pyStrip (l : List Char) : List Char :=
  ((l.dropWhile isPySpace).reverse.dropWhile isPySpace).reverse

/-- `re.sub(' +', ' ', s)`: collapse each maximal run of spaces to one. -/
def collapseSpaces : List Char → List Char
  | [] => []
  | [c] => [c]
  | c :: d :: t =>
      if c = ' ' ∧ d = ' ' then collapseSpaces (d :: t)
      else c :: collapseSpaces (d :: t)

/-- Python `s.split(' ')` (split at every single space). -/
def splitSpace : List Char → List (List Char)
  | [] => [[]]
  | c :: t =>
      match splitSpace t with
      | [] => [[c]]
      | h :: hs => if c = ' ' then [] :: h :: hs else (c :: h) :: hs

/-- Value of a non-empty all-digit string. -/
def digitsVal : List Char → Option ℕ
  | [] => none
  | [c] => if c.isDigit then some (c.toNat - '0'.toNat) else none
  | c :: d :: t =>
      if c.isDigit then
        (digitsVal (d :: t)).map (fun n => (c.toNat - '0'.toNat) * 10 ^ (d :: t).length + n)
      else none

/-- Python `int(token)` on the tokens reachable here. -/
def pyInt (l : List Char) : Option ℤ :=
  match l with
  | [] => none
  | c :: rest =>
      if c = '-' then (digitsVal rest).map (fun n => -(n : ℤ))
      else if c = '+' then (digitsVal rest).map (fun n => (n : ℤ))
      else (digitsVal (c :: rest)).map (fun n => (n : ℤ))

/-- Unsigned decimal: `digits`, `digits.`, `.digits` or `digits.digits`. -/
def pyFloatCore (l : List Char) : Option ℚ :=
  let ip := l.takeWhile Char.isDigit
  let rest := l.dropWhile Char.isDigit
  match rest with
  | [] => (digitsVal ip).map (fun n => (n : ℚ))
  | c :: frac =>
      if c = '.' ∧ frac.all Char.isDigit ∧ (ip ≠ [] ∨ frac ≠ []) then
        some ((((digitsVal ip).getD 0 : ℚ)) +
          (((digitsVal frac).getD 0 : ℚ)) / 10 ^ frac.length)
      else none

/-- Python `float(token)` on the tokens reachable here. -/
def pyFloat (l : List Char) : Option ℚ :=
  match l with
  | [] => none
  | c :: rest =>
      if c = '-' then (pyFloatCore rest).map (fun q => -q)
      else if c = '+' then pyFloatCore rest
      else pyFloatCore (c :: rest)

/-- The body `[int(line[0]), int(line[1]), float(line[-1])]` evaluated on the
token list, left to right: `IndexError` for a missing subscript, `ValueError`
for an unparsable token. -/
def parseTokens : List (List Char) → Except String (ℤ × ℤ × ℚ)
  | [] => .error "IndexError"
  | [t0] =>
      match pyInt t0 with
      | none => .error "ValueError"
      | some _ => .error "IndexError"
  | t0 :: t1 :: rest =>
      match pyInt t0 with
      | none => .error "ValueError"
      | some i =>
          match pyInt t1 with
          | none => .error "ValueError"
          | some c =>
              match pyFloat (rest.getLastD t1) with
              | none => .error "ValueError"
              | some t => .ok (i, c, t)

/-- One iteration of the `load_horizon` line loop: `none` when the cleaned
line is blank (`continue`); `some (.error _)` when Python raises;
`some (.ok (inline, crossline, time))` otherwise. -/
def loadHorizonLine (line : List Char) : Option (Except String (ℤ × ℤ × ℚ)) :=
  let cleaned := collapseSpaces (pyStrip (line.map cleanChar))
  if cleaned = [] then none
  else some (parseTokens (splitSpace cleaned))

/-! ## Offset binning (`qc/utils.py`, `update_avo_params`, inner loop)

Amplitudes are rationals; a possibly-NaN float is `Option ℚ` (`none` = NaN).
Per bin `i` over `step_list`: select the rows of `field` whose positional
offset satisfies `offset >= stp & offset < step_list[i+1]`; if the selection
has numpy size 0, store 0; otherwise slice columns `window[0] : window[1]+1`,
replace exact zeros by NaN, apply `calc_method` and run the result through
`np.nan_to_num(·, 0)`. -/

/-- Boolean-mask row selection `field[(offset >= lo) & (offset < hi)]`. -/
def selectRows (field : List (List ℚ)) (offset : List ℚ) (lo hi : ℚ) :
    List (List ℚ) :=
  ((field.zip offset).filter (fun p => decide (lo ≤ p.2 ∧ p.2 < hi))).map
    Prod.fst

/-- Python slice `row[w0 : w1+1]` (clamped at the ends like numpy). -/
def sliceCols (w0 w1 : ℕ) (row : List ℚ) : List ℚ :=
  (row.drop w0).take (w1 + 1 - w0)

/-- `subfield[subfield == 0] = np.nan`. -/
def maskZeros (m : List (List ℚ)) : List (List (Option ℚ)) :=
  m.map (fun r => r.map (fun a => if a = 0 then none else some a))

/-- `np.nan_to_num(x, 0)` on a scalar (the second positional argument is
`copy`; the NaN replacement stays at its default 0). -/
def nanToNum (x : Option ℚ) : ℚ := x.getD 0

/-- numpy `arr.size` of a row-selected sub-matrix. -/
def numpySize (m : List (List ℚ)) : ℕ := (m.map List.length).sum

/-- One bin of the `update_avo_params` inner loop, bin `[lo, hi)`. -/
def binValue (field : List (List ℚ)) (offset : List ℚ) (w : ℕ × ℕ)
    (agg : List (List (Option ℚ)) → Option ℚ) (lo hi : ℚ) : ℚ :=
  let subfield := selectRows field offset lo hi
  if numpySize subfield = 0 then 0
  else nanToNum (agg (maskZeros (subfield.map (sliceCols w.1 w.2))))

/-- The per-gather storage vector: `np.zeros(storage_size)` filled by the
loop `for i, stp in enumerate(step_list[:-1])`. -/
def avoStorage (field : List (List ℚ)) (offset : List ℚ) (stepList : List ℚ)
    (w : ℕ × ℕ) (agg : List (List (Option ℚ)) → Option ℚ)
    (storageSize : ℕ) : List ℚ :=
  (List.range storageSize).map (fun i =>
    if i + 1 < stepList.length then
      binValue field offset w agg (stepList.getD i 0) (stepList.getD (i + 1) 0)
    else 0)

/-- `np.nanmean` over the whole sub-matrix (a typical `calc_method`):
NaN (`none`) when every entry is missing. -/
def nanmeanFlat (m : List (List (Option ℚ))) : Option ℚ :=
  let vs := (m.join).filterMap id
  if vs.length = 0 then none else some (vs.sum / vs.length)

/-! ## Mean alignment (`qc/utils.py`, `std_plot`, `align_mean=True`)

`gen_mean = np.mean(resulted_df.val)` is the mean over the values of all
series; each named series is then shifted by
`align = gen_mean - np.mean(dframe.val)` (`dframe.val + align`).  Groups are
disjoint, so the in-place group updates commute and the whole step is the
map below. -/

/-- All series after mean alignment. -/
def alignedSeries (series : List (List ℚ)) : List (List ℚ) :=
  let genMean := listMean series.join
  series.map (fun s => s.map (fun v => v + (genMean - listMean s)))

/-! ## Robust linear fit (`seismic_metrics.py`, `PM.linear_diff`)

`stats.siegelslopes(time, offset)` (scipy, default `method='hierarchical'`):
for each point the median of the slopes to every other point with a distinct
abscissa, the fitted slope is the median of those per-point medians, and the
intercept is the median of `y - slope*x`.  The code then returns the mean of
`|offset*slope + intercept - time|` and the mean of
`|(offset - offset_all) * slope|`, where
`offset_all = np.sqrt((gx-sx)**2 + (gy-sy)**2 + (s_elev-g_elev)**2)`;
the square root is characterised (non-negative value whose square is the sum)
rather than computed, since it is irrational in general. -/

/-- `np.median`: middle of the sorted list, or the average of the two middle
elements for even length. -/
def median (l : List ℚ) : ℚ :=
  let s := l.insertionSort (· ≤ ·)
  if s.length = 0 then 0
  else if s.length % 2 = 1 then s.getD (s.length / 2) 0
  else (s.getD (s.length / 2 - 1) 0 + s.getD (s.length / 2) 0) / 2

/-- Slopes from `p` to every other point with a different abscissa
(`deltay[deltax != 0] / deltax[deltax != 0]`). -/
def pairwiseSlopes (pts : List (ℚ × ℚ)) (p : ℚ × ℚ) : List ℚ :=
  pts.filterMap (fun q =>
    if q.1 = p.1 then none else some ((q.2 - p.2) / (q.1 - p.1)))

/-- `scipy.stats.siegelslopes(y, x)`, hierarchical method. -/
def siegelslopes (y x : List ℚ) : ℚ × ℚ :=
  let pts := x.zip y
  let slope := median (pts.map (fun p => median (pairwiseSlopes pts p)))
  let intercept := median (pts.map (fun p => p.2 - slope * p.1))
  (slope, intercept)

/-- `PM.linear_diff` outputs, with the per-trace true 3-D distance
`offset_all` supplied as `dist`. -/
def linear_diff (time offset dist : List ℚ) : ℚ × ℚ :=
  let si := siegelslopes time offset
  (listMean ((offset.zip time).map (fun p => |p.1 * si.1 + si.2 - p.2|)),
   listMean ((offset.zip dist).map (fun p => |(p.1 - p.2) * si.1|)))

/-- Ordinary-least-squares slope, for contrast with the robust estimator. -/
def olsSlope (y x : List ℚ) : ℚ :=
  let n : ℚ := x.length
  let sx := x.sum
  let sy := y.sum
  let sxy := ((x.zip y).map (fun p => p.1 * p.2)).sum
  let sxx := (x.map (fun v => v * v)).sum
  (n * sxy - sx * sy) / (n * sxx - sx * sx)

/-! ## Multi-series table (`qc/utils.py`, `std_plot`, data assembly)

For each AVO result the code computes `results = results.T` (rows = bins,
columns = gathers); `resultsT` below is that transposed matrix and `m` is
`results.shape[1]` (gathers per bin; numpy guarantees the matrix is
rectangular).  Then `nonzeros_ixs = np.nonzero(np.sum(results, axis=1))[0]`,
`values = results[nonzeros_ixs].reshape(-1)`,
`offsets = (nonzeros_ixs * bin_size).repeat(m)`, and the table keeps the
pairs at `np.where(values)`. -/

/-- `np.nonzero(np.sum(results, axis=1))[0]`: bin rows with non-zero sum. -/
def binKeptIdx (resultsT : List (List ℚ)) : List ℕ :=
  (List.range resultsT.length).filter
    (fun i => decide ((resultsT.getD i []).sum ≠ 0))

/-- `results[nonzeros_ixs].reshape(-1)`. -/
def keptValues (resultsT : List (List ℚ)) : List ℚ :=
  ((binKeptIdx resultsT).map (fun i => resultsT.getD i [])).join

/-- `(nonzeros_ixs * bin_size).repeat(m)`. -/
def keptOffsets (resultsT : List (List ℚ)) (b : ℚ) (m : ℕ) : List ℚ :=
  ((binKeptIdx resultsT).map
    (fun i : ℕ => List.replicate m ((i : ℚ) * b))).join

/-- The `(value, offset)` pairs the code adds to the long-form table
(`nonzeros_val` zipped with `nonzeros_off`). -/
def stdPlotTable (resultsT : List (List ℚ)) (b : ℚ) (m : ℕ) :
    List (ℚ × ℚ) :=
  ((keptValues resultsT).zip (keptOffsets resultsT b m)).filter
    (fun p => decide (p.1 ≠ 0))

/-- The claim's description of the same table: keep the bins whose value sum
across gathers is non-zero, then keep each non-zero cell of a kept bin,
paired with the bin's offset `i * bin_size`. -/
def stdPlotTableSpec (resultsT : List (List ℚ)) (b : ℚ) : List (ℚ × ℚ) :=
  (((List.range resultsT.length).filter
      (fun i => decide ((resultsT.getD i []).sum ≠ 0))).map
    (fun i : ℕ => ((resultsT.getD i []).filter (fun v => decide (v ≠ 0))).map
      (fun v => (v, (i : ℚ) * b)))).join

/-! ## AVO summarizer configuration dispatch (`qc/utils.py`, `avo_plot`)

`avg_method`: the string `'mean'` becomes
`lambda nan_data: np.nanmean(nan_data, axis=1)`; any other non-callable
raises `ValueError` immediately.  `stats` entries: `'std'` and `'corr'`
append a diagnostic, a callable is applied, and any other entry reaches
`else: ValueError('Wrong stats type.')` — which **constructs** the exception
without `raise`, so the entry is silently skipped and the loop continues. -/

/-- `np.nanmean(·, axis=1)` on one row. -/
def nanmeanRow (r : List (Option ℚ)) : Option ℚ :=
  let vs := r.filterMap id
  if vs.length = 0 then none else some (vs.sum / vs.length)

/-- An `avg_method` argument: a name, or a caller-supplied callable. -/
inductive AvgArg where
  | named (s : String)
  | callable (f : List (List (Option ℚ)) → List (Option ℚ))

/-- The `avg_method` dispatch of `avo_plot` (lines 252-256). -/
def resolveAvgMethod (a : AvgArg) :
    Except String (List (List (Option ℚ)) → List (Option ℚ)) :=
  match a with
  | .named s =>
      if s = "mean" then .ok (fun nanData => nanData.map nanmeanRow)
      else .error "`avg_method` as src should be either 'mean' or callable"
  | .callable f => .ok f

/-- A `stats` entry: a name, or a caller-supplied callable. -/
inductive StatArg where
  | named (s : String)
  | callable (f : List (List (Option ℚ)) → ℚ)

/-- The `stats` loop of `avo_plot` (lines 279-290), modelled on the names it
appends (`stats_names`); the error channel mirrors where a `raise` occurs.
The final `else` arm evaluates `ValueError('Wrong stats type.')` but never
raises it, so it appends nothing and continues. -/
def avoStatsNames : List StatArg → Except String (List String)
  | [] => .ok []
  | st :: rest =>
      match st with
      | .named s =>
          if s = "std" then (avoStatsNames rest).map (fun l => "Mean std" :: l)
          else if s = "corr" then
            (avoStatsNames rest).map (fun l => "Corr" :: l)
          else avoStatsNames rest
      | .callable _ =>
          (avoStatsNames rest).map (fun l => "Callable stat" :: l)

/-! ## Frame effect of the offset-binning step (`update_avo_params`)

A small heap semantics for the numpy arrays touched by the inner loop.
Boolean-mask indexing (`field[mask]`) returns a *copy* (numpy advanced
indexing), modelled as allocating a fresh matrix at the end of the heap;
`subfield[:, w0:w1+1]` is a view of that copy (a column window);
`subfield[subfield == 0] = np.nan` writes through the view into the copy's
heap cell.  The original `field` cell is never written. -/

/-- A numpy matrix whose entries may be NaN. -/
abbrev Mat := List (List (Option ℚ))

/-- The array heap: matrix ids are positions. -/
abbrev Heap := List Mat

def heapGet (h : Heap) (i : ℕ) : Mat := h.getD i []

/-- `subfield == 0` masking restricted to the column window `[w0, w1+1)`,
as performed through the sliced view. -/
def maskZerosAt (w0 w1 : ℕ) (m : Mat) : Mat :=
  m.map (fun r => r.mapIdx (fun j a =>
    if w0 ≤ j ∧ j < w1 + 1 ∧ a = some 0 then none else a))

/-- Read the sliced view `[:, w0:w1+1]` of a heap matrix. -/
def readSlice (h : Heap) (vid w0 w1 : ℕ) : Mat :=
  (heapGet h vid).map (fun r => (r.drop w0).take (w1 + 1 - w0))

/-- One bin `[lo, hi)` of the inner loop, on the heap: mask-select rows of
`field` (a fresh copy), and unless empty, mask zeros through the column view
and aggregate. Returns the new heap and the stored value. -/
def binStepHeap (h : Heap) (fid : ℕ) (offset : List ℚ) (w : ℕ × ℕ)
    (agg : Mat → Option ℚ) (lo hi : ℚ) : Heap × ℚ :=
  let keep := offset.map (fun o => decide (lo ≤ o ∧ o < hi))
  let sub := (((heapGet h fid).zip keep).filter (fun p => p.2)).map Prod.fst
  if (sub.map List.length).sum = 0 then (h, 0)
  else
    let h1 := h ++ [sub]
    let vid := h.length
    let h2 := h1.set vid (maskZerosAt w.1 w.2 (heapGet h1 vid))
    (h2, nanToNum (agg (readSlice h2 vid w.1 w.2)))

/-- The whole per-gather bin loop on the heap. -/
def avoLoopHeap (h : Heap) (fid : ℕ) (offset : List ℚ) (w : ℕ × ℕ)
    (agg : Mat → Option ℚ) : List (ℚ × ℚ) → Heap × List ℚ
  | [] => (h, [])
  | (lo, hi) :: rest =>
      let s := binStepHeap h fid offset w agg lo hi
      let r := avoLoopHeap s.1 fid offset w agg rest
      (r.1, s.2 :: r.2)

/-- The stored value as a pure function of the field matrix (used to show
the loop's outputs depend only on the unmutated field). -/
def binValueOnMat (m : Mat) (offset : List ℚ) (w : ℕ × ℕ)
    (agg : Mat → Option ℚ) (lo hi : ℚ) : ℚ :=
  let keep := offset.map (fun o => decide (lo ≤ o ∧ o < hi))
  let sub := ((m.zip keep).filter (fun p => p.2)).map Prod.fst
  if (sub.map List.length).sum = 0 then 0
  else nanToNum (agg ((maskZerosAt w.1 w.2 sub).map
    (fun r => (r.drop w.1).take (w.2 + 1 - w.1))))

/-! ## Supporting lemmas -/

theorem listMin_le {l : List ℚ} {x : ℚ} (hx : x ∈ l) : listMin l ≤ x := by
  induction l with
  | nil => cases hx
  | cons a t ih =>
    cases t with
    | nil =>
      rcases List.mem_cons.mp hx with h | h
      · subst h; simp [listMin]
      · cases h
    | cons b t' =>
      rcases List.mem_cons.mp hx with h | h
      · subst h; simp [listMin]
      · exact le_trans (by simp [listMin]) (ih h)

theorem le_listMax {l : List ℚ} {x : ℚ} (hx : x ∈ l) : x ≤ listMax l := by
  induction l with
  | nil => cases hx
  | cons a t ih =>
    cases t with
    | nil =>
      rcases List.mem_cons.mp hx with h | h
      · subst h; simp [listMax]
      · cases h
    | cons b t' =>
      rcases List.mem_cons.mp hx with h | h
      · subst h; simp [listMax]
      · exact le_trans (ih h) (by simp [listMax])

theorem arange_length (s e st : ℚ) :
    (arange s e st).length = (⌈(e - s) / st⌉).toNat := by
  simp [arange]

theorem getD_map_lt {α β : Type} (l : List α) (f : α → β) (d : β) (d' : α)
    {i : ℕ} (h : i < l.length) :
    (l.map f).getD i d = f (l.getD i d') := by
  rw [List.getD_eq_getElem?_getD, List.getElem?_map,
    List.getElem?_eq_getElem h, List.getD_eq_getElem?_getD,
    List.getElem?_eq_getElem h]
  rfl

theorem arange_getD (s e st : ℚ) {i : ℕ} (h : i < (arange s e st).length) :
    (arange s e st).getD i 0 = s + i * st := by
  rw [arange_length] at h
  unfold arange
  rw [getD_map_lt (List.range _) _ _ 0 (by simpa using h)]
  congr 1
  rw [List.getD_eq_getElem?_getD, List.getElem?_range (by simpa using h)]
  rfl

theorem axis_unique (xmin xmax b x : ℚ) (hb : 0 < b)
    (h1 : xmin ≤ x) (h2 : x ≤ xmax) :
    ∃! i : ℕ, i < (arange xmin (xmax + b) b).length ∧
      (arange xmin (xmax + b) b).getD i 0 ≤ x ∧
      x < (arange xmin (xmax + b) b).getD i 0 + b := by
  have hlen : (arange xmin (xmax + b) b).length = (⌈(xmax + b - xmin) / b⌉).toNat :=
    arange_length _ _ _
  set q : ℚ := (x - xmin) / b with hq
  have hq0 : 0 ≤ q := div_nonneg (by linarith) hb.le
  have hfl0 : (0 : ℤ) ≤ ⌊q⌋ := Int.floor_nonneg.mpr hq0
  have hnatcast : ((⌊q⌋.toNat : ℚ)) = ((⌊q⌋ : ℤ) : ℚ) := by
    rw [← Int.cast_natCast, Int.toNat_of_nonneg hfl0]
  have hqb : q * b = x - xmin := div_mul_cancel₀ _ hb.ne'
  have hlow : xmin + (⌊q⌋.toNat : ℚ) * b ≤ x := by
    rw [hnatcast]
    nlinarith [mul_le_mul_of_nonneg_right (Int.floor_le q) hb.le]
  have hhigh : x < xmin + (⌊q⌋.toNat : ℚ) * b + b := by
    rw [hnatcast]
    nlinarith [mul_lt_mul_of_pos_right (Int.lt_floor_add_one q) hb]
  have hidx : ⌊q⌋.toNat < (arange xmin (xmax + b) b).length := by
    rw [hlen]
    have hq2 : q < (xmax + b - xmin) / b := by
      rw [hq, div_lt_div_iff₀ hb hb]
      nlinarith
    have hq3 : (⌊q⌋ : ℚ) < (⌈(xmax + b - xmin) / b⌉ : ℚ) :=
      lt_of_le_of_lt (Int.floor_le q) (lt_of_lt_of_le hq2 (Int.le_ceil _))
    have hq4 : ⌊q⌋ < ⌈(xmax + b - xmin) / b⌉ := by exact_mod_cast hq3
    omega
  refine ⟨⌊q⌋.toNat, ⟨hidx, ?_, ?_⟩, ?_⟩
  · rw [arange_getD _ _ _ hidx]; exact hlow
  · rw [arange_getD _ _ _ hidx]; exact hhigh
  · rintro i' ⟨hi', hlo', hhi'⟩
    rw [arange_getD _ _ _ hi'] at hlo' hhi'
    have hfeq : ⌊q⌋ = (i' : ℤ) := by
      rw [Int.floor_eq_iff]
      constructor
      · push_cast
        rw [hq, le_div_iff₀ hb]
        linarith
      · push_cast
        rw [hq, div_lt_iff₀ hb]
        linarith
    omega

theorem existsUnique_pair {P Q : ℕ → Prop}
    (hp : ∃! i, P i) (hq : ∃! j, Q j) :
    ∃! p : ℕ × ℕ, P p.1 ∧ Q p.2 := by
  obtain ⟨i, hi, hiu⟩ := hp
  obtain ⟨j, hj, hju⟩ := hq
  exact ⟨(i, j), ⟨hi, hj⟩, fun p hp =>
    Prod.ext (hiu p.1 hp.1) (hju p.2 hp.2)⟩

theorem cellValue_eq_spec (samples : List (ℚ × ℚ × ℚ)) (b rx ry : ℚ) :
    cellValue samples b rx ry =
      (if (cellSamplesSpec samples b rx ry).length = 0 then none
       else some (listMean ((cellSamplesSpec samples b rx ry).map
         (fun s => s.2.2)))) := by
  have hf : samples.filter (fun s =>
      decide (0 ≤ s.1 - rx ∧ s.1 - rx < b ∧ 0 ≤ s.2.1 - ry ∧ s.2.1 - ry < b))
      = cellSamplesSpec samples b rx ry := by
    unfold cellSamplesSpec
    apply List.filter_congr
    intro s _
    apply decide_eq_decide.mpr
    constructor
    · rintro ⟨a1, a2, a3, a4⟩
      exact ⟨by linarith, by linarith, by linarith, by linarith⟩
    · rintro ⟨a1, a2, a3, a4⟩
      exact ⟨by linarith, by linarith, by linarith, by linarith⟩
  unfold cellValue
  simp only [hf]
  by_cases hl : (cellSamplesSpec samples b rx ry).length = 0
  · simp [hl]
  · simp [hl, Nat.pos_of_ne_zero hl]

theorem sum_map_add_const (s : List ℚ) (a : ℚ) :
    (s.map (fun v => v + a)).sum = s.sum + s.length * a := by
  induction s with
  | nil => simp
  | cons h t ih =>
    simp [ih]
    ring

theorem listMean_eq (l : List ℚ) : listMean l = l.sum / l.length := rfl

theorem length_mul_listMean (s : List ℚ) :
    (s.length : ℚ) * listMean s = s.sum := by
  cases s with
  | nil => simp [listMean]
  | cons h t =>
    have hne : (((h :: t).length : ℚ)) ≠ 0 := by
      simp only [List.length_cons]
      push_cast
      positivity
    rw [listMean_eq, mul_comm, div_mul_cancel₀ _ hne]

theorem listMean_map_add (s : List ℚ) (a : ℚ) :
    listMean (s.map (fun v => v + a)) = (s.sum + s.length * a) / s.length := by
  unfold listMean
  rw [sum_map_add_const, List.length_map]

theorem aligned_join_sum (series : List (List ℚ)) (g : ℚ) :
    ((series.map (fun s => s.map (fun v => v + (g - listMean s)))).join).sum
      = g * series.join.length := by
  induction series with
  | nil => simp
  | cons s t ih =>
    simp only [List.map_cons, List.join_cons, List.sum_append, ih,
      sum_map_add_const, List.length_append]
    have := length_mul_listMean s
    push_cast
    linarith

theorem maskRow_filterMap (r : List ℚ) :
    (r.map (fun a => if a = 0 then none else some a)).filterMap id
      = r.filter (fun a => decide (¬ a = 0)) := by
  induction r with
  | nil => rfl
  | cons a t ih =>
    by_cases h : a = 0 <;> simp [h, ih]

theorem maskZeros_join_filterMap (m : List (List ℚ)) :
    ((maskZeros m).join).filterMap id
      = (m.join).filter (fun a => decide (¬ a = 0)) := by
  induction m with
  | nil => rfl
  | cons r t ih =>
    have ih' : ((t.map (fun r =>
        r.map (fun a => if a = 0 then none else some a))).join).filterMap id
        = (t.join).filter (fun a => decide (¬ a = 0)) := by
      simpa [maskZeros] using ih
    simp only [maskZeros, List.map_cons, List.join_cons, List.filterMap_append,
      List.filter_append, maskRow_filterMap, ih']

theorem selectRows_mem_field {field : List (List ℚ)} {offset : List ℚ}
    {lo hi : ℚ} {r : List ℚ} (hr : r ∈ selectRows field offset lo hi) :
    r ∈ field := by
  unfold selectRows at hr
  obtain ⟨p, hp, hpr⟩ := List.mem_map.mp hr
  rcases p with ⟨row, o⟩
  subst hpr
  exact (List.mem_zip (List.mem_of_mem_filter hp)).1

theorem selectRows_eq_nil_iff (field : List (List ℚ)) (offset : List ℚ)
    (lo hi : ℚ) (hlen : field.length = offset.length) :
    (selectRows field offset lo hi = []) ↔
      ∀ o ∈ offset, ¬ (lo ≤ o ∧ o < hi) := by
  unfold selectRows
  rw [List.map_eq_nil_iff, List.filter_eq_nil_iff]
  constructor
  · intro h o ho hoin
    have hmem : o ∈ (field.zip offset).map Prod.snd := by
      rw [List.map_snd_zip field offset (le_of_eq hlen.symm)]
      exact ho
    obtain ⟨p, hp, hps⟩ := List.mem_map.mp hmem
    have hnp := h p hp
    rw [hps] at hnp
    simp only [decide_eq_true_eq] at hnp
    exact hnp hoin
  · intro h p hp
    simp only [decide_eq_true_eq]
    rcases p with ⟨row, o⟩
    exact h o (List.mem_zip hp).2

theorem numpySize_ne_zero (m : List (List ℚ)) (hm : m ≠ [])
    (hr : ∀ r ∈ m, r ≠ []) : numpySize m ≠ 0 := by
  cases m with
  | nil => exact absurd rfl hm
  | cons r t =>
    have h1 : r ≠ [] := hr r (by simp)
    have h2 : r.length ≠ 0 := fun h => h1 (List.length_eq_zero.mp h)
    unfold numpySize
    simp only [List.map_cons, List.sum_cons]
    omega

theorem zip_replicate_eq_map (row : List ℚ) (off : ℚ) :
    row.zip (List.replicate row.length off) = row.map (fun v => (v, off)) := by
  induction row with
  | nil => rfl
  | cons a t ih => simp [List.replicate_succ, ih]

theorem filter_fst_map_pair (row : List ℚ) (off : ℚ) :
    ((row.map (fun v => (v, off))).filter (fun p => decide (p.1 ≠ 0)))
      = (row.filter (fun v => decide (v ≠ 0))).map (fun v => (v, off)) := by
  induction row with
  | nil => rfl
  | cons a t ih => by_cases h : a = 0 <;> simpa [h] using ih

theorem table_blocks (idxs : List ℕ) (resultsT : List (List ℚ)) (b : ℚ)
    (m : ℕ) (h : ∀ i ∈ idxs, (resultsT.getD i []).length = m) :
    (((idxs.map (fun i => resultsT.getD i [])).join).zip
      ((idxs.map (fun i : ℕ => List.replicate m ((i : ℚ) * b))).join)).filter
        (fun p => decide (p.1 ≠ 0))
    = (idxs.map (fun i : ℕ =>
        ((resultsT.getD i []).filter (fun v => decide (v ≠ 0))).map
          (fun v => (v, (i : ℚ) * b)))).join := by
  induction idxs with
  | nil => rfl
  | cons i t ih =>
    have hrow : (resultsT.getD i []).length = m := h i (by simp)
    have hhead : ((resultsT.getD i []).zip
        (List.replicate m ((i : ℚ) * b))).filter (fun p => decide (p.1 ≠ 0))
        = ((resultsT.getD i []).filter (fun v => decide (v ≠ 0))).map
            (fun v => (v, (i : ℚ) * b)) := by
      rw [← hrow, zip_replicate_eq_map, filter_fst_map_pair]
    simp only [List.map_cons, List.join_cons]
    rw [List.zip_append (by simpa using hrow), List.filter_append, hhead,
      ih (fun j hj => h j (by simp [hj]))]

theorem heapGet_append_self (h : Heap) (sub : Mat) :
    heapGet (h ++ [sub]) h.length = sub := by
  unfold heapGet
  rw [List.getD_eq_getElem?_getD, List.getElem?_append_right (le_refl _)]
  simp

theorem heapGet_append_left (h : Heap) (l : List Mat) (i : ℕ)
    (hi : i < h.length) : heapGet (h ++ l) i = heapGet h i := by
  unfold heapGet
  rw [List.getD_eq_getElem?_getD, List.getElem?_append_left hi,
    List.getD_eq_getElem?_getD]

theorem heapGet_set_self (h : Heap) (i : ℕ) (m : Mat) (hi : i < h.length) :
    heapGet (h.set i m) i = m := by
  unfold heapGet
  rw [List.getD_eq_getElem?_getD, List.getElem?_set_self]
  · rfl
  · exact hi

theorem heapGet_set_ne (h : Heap) (i j : ℕ) (m : Mat) (hne : i ≠ j) :
    heapGet (h.set i m) j = heapGet h j := by
  unfold heapGet
  rw [List.getD_eq_getElem?_getD, List.getElem?_set_ne hne,
    List.getD_eq_getElem?_getD]

theorem binStepHeap_frame (h : Heap) (fid : ℕ) (offset : List ℚ)
    (w : ℕ × ℕ) (agg : Mat → Option ℚ) (lo hi : ℚ)
    (hfid : fid < h.length) :
    heapGet ((binStepHeap h fid offset w agg lo hi).1) fid = heapGet h fid := by
  simp only [binStepHeap]
  split_ifs with hc
  · rfl
  · rw [heapGet_set_ne _ _ _ _ (by omega), heapGet_append_left _ _ _ hfid]

theorem binStepHeap_len (h : Heap) (fid : ℕ) (offset : List ℚ)
    (w : ℕ × ℕ) (agg : Mat → Option ℚ) (lo hi : ℚ) :
    h.length ≤ ((binStepHeap h fid offset w agg lo hi).1).length := by
  simp only [binStepHeap]
  split_ifs with hc
  · exact le_refl _
  · simp

theorem binStepHeap_val (h : Heap) (fid : ℕ) (offset : List ℚ)
    (w : ℕ × ℕ) (agg : Mat → Option ℚ) (lo hi : ℚ) :
    (binStepHeap h fid offset w agg lo hi).2
      = binValueOnMat (heapGet h fid) offset w agg lo hi := by
  simp only [binStepHeap, binValueOnMat]
  split_ifs with hc
  · rfl
  · simp only [readSlice]
    rw [heapGet_set_self _ _ _ (by simp), heapGet_append_self]

theorem avoLoopHeap_frame (bins : List (ℚ × ℚ)) (h : Heap) (fid : ℕ)
    (offset : List ℚ) (w : ℕ × ℕ) (agg : Mat → Option ℚ)
    (hfid : fid < h.length) :
    heapGet ((avoLoopHeap h fid offset w agg bins).1) fid = heapGet h fid ∧
    h.length ≤ ((avoLoopHeap h fid offset w agg bins).1).length := by
  induction bins generalizing h with
  | nil => exact ⟨rfl, le_refl _⟩
  | cons bin rest ih =>
    rcases bin with ⟨lo, hi⟩
    simp only [avoLoopHeap]
    have h1 := binStepHeap_frame h fid offset w agg lo hi hfid
    have h2 := binStepHeap_len h fid offset w agg lo hi
    obtain ⟨ha, hb⟩ := ih _ (lt_of_lt_of_le hfid h2)
    exact ⟨ha.trans h1, le_trans h2 hb⟩

theorem avoLoopHeap_values (bins : List (ℚ × ℚ)) (h : Heap) (fid : ℕ)
    (offset : List ℚ) (w : ℕ × ℕ) (agg : Mat → Option ℚ)
    (hfid : fid < h.length) :
    (avoLoopHeap h fid offset w agg bins).2
      = bins.map (fun p => binValueOnMat (heapGet h fid) offset w agg p.1 p.2) := by
  induction bins generalizing h with
  | nil => rfl
  | cons bin rest ih =>
    rcases bin with ⟨lo, hi⟩
    simp only [avoLoopHeap, List.map_cons]
    have hfr := binStepHeap_frame h fid offset w agg lo hi hfid
    have hlen := binStepHeap_len h fid offset w agg lo hi
    rw [binStepHeap_val, ih _ (lt_of_lt_of_le hfid hlen), hfr]

/-! ## Claim theorems -/

/-- C1: the claim states that `MetricsMap.build([(0,0),(0,0),(1,1)], [10,20,30])`
yields samples valued `[10, 30]`, each retained coordinate being paired with
the value supplied at its first occurrence.  The code instead zips the
deduplicated coordinates with the *un-deduplicated* metrics list, so the
sample at `(1, 1)` receives value `20` (the value supplied for the duplicate
of `(0, 0)`), not `30`: the resulting values are `[10, 20]`. -/
theorem C1_build_mispairs_values :
    buildSamples [((0 : ℚ), (0 : ℚ)), (0, 0), (1, 1)] [10, 20, 30]
      = [((0 : ℚ), (0 : ℚ), (10 : ℚ)), (1, 1, 20)] ∧
    (buildSamples [((0 : ℚ), (0 : ℚ)), (0, 0), (1, 1)] [10, 20, 30]).map
        (fun s => s.2.2) ≠ [10, 30] := by
  constructor
  · rfl
  · decide

/-- C2: in `construct_metrics_map`, a sample `(x, y)` lies in cell `(i, j)`
iff `range_x[i] ≤ x < range_x[i] + bin_size` and
`range_y[j] ≤ y < range_y[j] + bin_size`; every sample falls in exactly one
cell; a cell with a non-empty sample set holds the mean of its samples'
values, a cell with no samples holds the not-a-number sentinel (`none`). -/
theorem C2_bin_grid_cells (samples : List (ℚ × ℚ × ℚ)) (b : ℚ)
    (_hne : samples ≠ []) (hb : 0 < b) :
    (∀ s ∈ samples, ∃! p : ℕ × ℕ,
        (p.1 < (rangeX samples b).length ∧
          (rangeX samples b).getD p.1 0 ≤ s.1 ∧
          s.1 < (rangeX samples b).getD p.1 0 + b) ∧
        (p.2 < (rangeY samples b).length ∧
          (rangeY samples b).getD p.2 0 ≤ s.2.1 ∧
          s.2.1 < (rangeY samples b).getD p.2 0 + b)) ∧
    (∀ i j, i < (rangeX samples b).length → j < (rangeY samples b).length →
        ((constructMetricsMap samples b).getD j []).getD i none =
          (if (cellSamplesSpec samples b ((rangeX samples b).getD i 0)
                ((rangeY samples b).getD j 0)).length = 0 then none
           else some (listMean ((cellSamplesSpec samples b
                ((rangeX samples b).getD i 0)
                ((rangeY samples b).getD j 0)).map (fun s => s.2.2))))) := by
  constructor
  · intro s hs
    have hx : s.1 ∈ xsOf samples := List.mem_map_of_mem _ hs
    have hy : s.2.1 ∈ ysOf samples := List.mem_map_of_mem _ hs
    unfold rangeX rangeY
    exact existsUnique_pair
      (axis_unique _ _ _ _ hb (listMin_le hx) (le_listMax hx))
      (axis_unique _ _ _ _ hb (listMin_le hy) (le_listMax hy))
  · intro i j hi hj
    have h1 : (constructMetricsMap samples b).getD j [] =
        (rangeX samples b).map
          (fun rx => cellValue samples b rx ((rangeY samples b).getD j 0)) := by
      unfold constructMetricsMap
      exact getD_map_lt _ _ _ 0 hj
    rw [h1, getD_map_lt _ _ _ 0 hi, cellValue_eq_spec]

/-- Witness for C2 on the spec's concrete scenario: samples
`{(0,0): 10, (1,1): 30}` with `bin_size = 1` give a grid with
`grid[0][0] = 10`, `grid[1][1] = 30` and not-a-number off the diagonal. -/
theorem C2_bin_grid_cells_witness :
    ((constructMetricsMap [((0 : ℚ), 0, 10), (1, 1, 30)] 1).getD 0 []).getD 0 none
        = some 10 ∧
    ((constructMetricsMap [((0 : ℚ), 0, 10), (1, 1, 30)] 1).getD 1 []).getD 1 none
        = some 30 ∧
    ((constructMetricsMap [((0 : ℚ), 0, 10), (1, 1, 30)] 1).getD 0 []).getD 1 none
        = none := by
  have hcx : ⌈(listMax (xsOf [((0 : ℚ), 0, 10), (1, 1, 30)]) + 1
      - listMin (xsOf [((0 : ℚ), 0, 10), (1, 1, 30)])) / 1⌉ = 2 := by
    rw [show (listMax (xsOf [((0 : ℚ), 0, 10), (1, 1, 30)]) + 1
      - listMin (xsOf [((0 : ℚ), 0, 10), (1, 1, 30)])) / 1 = (2 : ℚ) from by
        norm_num [xsOf, listMin, listMax]]
    norm_num
  have hcy : ⌈(listMax (ysOf [((0 : ℚ), 0, 10), (1, 1, 30)]) + 1
      - listMin (ysOf [((0 : ℚ), 0, 10), (1, 1, 30)])) / 1⌉ = 2 := by
    rw [show (listMax (ysOf [((0 : ℚ), 0, 10), (1, 1, 30)]) + 1
      - listMin (ysOf [((0 : ℚ), 0, 10), (1, 1, 30)])) / 1 = (2 : ℚ) from by
        norm_num [ysOf, listMin, listMax]]
    norm_num
  have hr : rangeX [((0 : ℚ), 0, 10), (1, 1, 30)] 1 = [0, 1] := by
    unfold rangeX arange
    rw [hcx, show Int.toNat 2 = 2 from rfl, show List.range 2 = [0, 1] from rfl]
    norm_num [xsOf, listMin]
  have hs : rangeY [((0 : ℚ), 0, 10), (1, 1, 30)] 1 = [0, 1] := by
    unfold rangeY arange
    rw [hcy, show Int.toNat 2 = 2 from rfl, show List.range 2 = [0, 1] from rfl]
    norm_num [ysOf, listMin]
  have h := (C2_bin_grid_cells [((0 : ℚ), 0, 10), (1, 1, 30)] 1
    (by decide) (by norm_num)).2
  refine ⟨?_, ?_, ?_⟩
  · rw [h 0 0 (by rw [hr]; decide) (by rw [hs]; decide), hr, hs]
    norm_num [cellSamplesSpec, List.filter, listMean, List.getD]
  · rw [h 1 1 (by rw [hr]; decide) (by rw [hs]; decide), hr, hs]
    norm_num [cellSamplesSpec, List.filter, listMean, List.getD]
  · rw [h 1 0 (by rw [hr]; decide) (by rw [hs]; decide), hr, hs]
    norm_num [cellSamplesSpec, List.filter, listMean, List.getD]

/-- C4 counterexample: the claim says a cleaned line with fewer than 3 tokens
fails with a parse error, but the two-token line `"1 2"` succeeds: `line[-1]`
is the second token, so the code returns `(1, 2, 2.0)` and raises nothing. -/
theorem C4_two_token_line_counterexample :
    loadHorizonLine ['1', ' ', '2'] = some (.ok (1, 2, 2)) ∧
    ¬ ∃ msg, loadHorizonLine ['1', ' ', '2'] = some (.error msg) := by
  have hmain : loadHorizonLine ['1', ' ', '2'] = some (.ok (1, 2, 2)) := by
    simp only [loadHorizonLine]
    rw [if_neg (by decide), show splitSpace (collapseSpaces (pyStrip
      (List.map cleanChar ['1', ' ', '2']))) = [['1'], ['2']] from by decide]
    simp +decide [parseTokens, pyInt, pyFloat, pyFloatCore, digitsVal]
  refine ⟨hmain, ?_⟩
  rintro ⟨msg, hmsg⟩
  rw [hmain] at hmsg
  simp at hmsg

/-- C4 (amended): blank cleaned lines are skipped; a cleaned line with exactly
one token fails; a cleaned line with two or more tokens takes its first token
as the integer inline, its second as the integer crossline and its *last*
token as the float time, ignoring tokens in between (so an exactly-two-token
line reuses the second token as the time instead of failing). -/
theorem C4_load_horizon_line_amended (line : List Char) :
    (collapseSpaces (pyStrip (line.map cleanChar)) = [] →
        loadHorizonLine line = none) ∧
    (∀ t0 : List Char,
        collapseSpaces (pyStrip (line.map cleanChar)) ≠ [] →
        splitSpace (collapseSpaces (pyStrip (line.map cleanChar))) = [t0] →
        ∃ msg, loadHorizonLine line = some (.error msg)) ∧
    (∀ t0 t1 rest (i c : ℤ) (t : ℚ),
        collapseSpaces (pyStrip (line.map cleanChar)) ≠ [] →
        splitSpace (collapseSpaces (pyStrip (line.map cleanChar))) = t0 :: t1 :: rest →
        pyInt t0 = some i → pyInt t1 = some c →
        pyFloat ((t0 :: t1 :: rest).getLastD []) = some t →
        loadHorizonLine line = some (.ok (i, c, t))) := by
  refine ⟨?_, ?_, ?_⟩
  · intro h
    simp only [loadHorizonLine]
    rw [if_pos h]
  · intro t0 hne hsplit
    rcases h0 : pyInt t0 with _ | i
    · refine ⟨"ValueError", ?_⟩
      simp only [loadHorizonLine]
      rw [if_neg hne, hsplit]
      simp [parseTokens, h0]
    · refine ⟨"IndexError", ?_⟩
      simp only [loadHorizonLine]
      rw [if_neg hne, hsplit]
      simp [parseTokens, h0]
  · intro t0 t1 rest i c t hne hsplit h0 h1 hlast
    have hlast' : pyFloat (rest.getLastD t1) = some t := by
      rw [show (t0 :: t1 :: rest).getLastD [] = rest.getLastD t1 from by
        cases rest <;> simp [List.getLastD]] at hlast
      exact hlast
    rw [List.getLastD_eq_getLast?] at hlast'
    simp only [loadHorizonLine]
    rw [if_neg hne, hsplit]
    simp [parseTokens, h0, h1, hlast']

/-- Witness for C4 (amended) on the line `"1 2 a 3.5"`: the alphabetic token
is blanked and collapsed away, leaving tokens `1`, `2`, `3.5`; the middle
token is the crossline and the last is the time. -/
theorem C4_load_horizon_line_witness :
    loadHorizonLine ['1', ' ', '2', ' ', 'a', ' ', '3', '.', '5']
      = some (.ok (1, 2, 7 / 2)) := by
  apply (C4_load_horizon_line_amended _).2.2 ['1'] ['2'] [['3', '.', '5']] 1 2 (7 / 2)
  · decide
  · decide
  · simp +decide [pyInt, digitsVal]
  · simp +decide [pyInt, digitsVal]
  · show pyFloat ((_ : List (List Char)).getLastD []) = _
    rw [show ((['1'] : List Char) :: ['2'] :: [['3', '.', '5']]).getLastD []
      = ['3', '.', '5'] from by decide]
    simp +decide [pyFloat, pyFloatCore, digitsVal]
    norm_num

/-- C3: for a bin `[lo, hi)` of `update_avo_params`: an empty bin stores
exactly 0; a non-empty bin stores the aggregator applied to the
window-restricted selection with exact zeros masked to NaN, with a NaN
result coerced to 0; with the NaN-aware mean as aggregator, an all-zero bin
stores 0 and a bin with some non-zero amplitude stores the mean of its
non-zero (masked) window values.  The first conjunct ties `binValue` to the
stored `OffsetBinVector` entry. -/
theorem C3_offset_bin_zero_and_masking
    (field : List (List ℚ)) (offset : List ℚ) (w : ℕ × ℕ)
    (agg : List (List (Option ℚ)) → Option ℚ)
    (stepList : List ℚ) (storageSize i : ℕ) (lo hi : ℚ)
    (hlen : field.length = offset.length)
    (hrows : ∀ r ∈ field, r ≠ [])
    (hi1 : i < storageSize) (hi2 : i + 1 < stepList.length) :
    ((avoStorage field offset stepList w agg storageSize).getD i 0
        = binValue field offset w agg (stepList.getD i 0)
            (stepList.getD (i + 1) 0)) ∧
    ((∀ o ∈ offset, ¬ (lo ≤ o ∧ o < hi)) →
        binValue field offset w agg lo hi = 0) ∧
    ((∃ o ∈ offset, lo ≤ o ∧ o < hi) →
        binValue field offset w agg lo hi
          = nanToNum (agg (maskZeros
              ((selectRows field offset lo hi).map (sliceCols w.1 w.2))))) ∧
    ((∃ o ∈ offset, lo ≤ o ∧ o < hi) →
      (((selectRows field offset lo hi).map (sliceCols w.1 w.2)).join.filter
          (fun a => decide (¬ a = 0)) = [] →
        binValue field offset w nanmeanFlat lo hi = 0)) ∧
    (∀ nz : List ℚ,
      nz = ((selectRows field offset lo hi).map (sliceCols w.1 w.2)).join.filter
          (fun a => decide (¬ a = 0)) →
      nz ≠ [] →
        binValue field offset w nanmeanFlat lo hi = listMean nz) := by
  have hsel : (∃ o ∈ offset, lo ≤ o ∧ o < hi) →
      numpySize (selectRows field offset lo hi) ≠ 0 := by
    rintro ⟨o, ho, hoin⟩
    have hnn : selectRows field offset lo hi ≠ [] := by
      intro hnil
      exact ((selectRows_eq_nil_iff field offset lo hi hlen).mp hnil) o ho hoin
    exact numpySize_ne_zero _ hnn (fun r hr => hrows r (selectRows_mem_field hr))
  refine ⟨?_, ?_, ?_, ?_, ?_⟩
  · unfold avoStorage
    rw [getD_map_lt (List.range storageSize) _ 0 0 (by simpa using hi1)]
    have hri : (List.range storageSize).getD i 0 = i := by
      rw [List.getD_eq_getElem?_getD, List.getElem?_range hi1]
      rfl
    rw [hri, if_pos hi2]
  · intro hnone
    unfold binValue
    rw [if_pos]
    rw [(selectRows_eq_nil_iff field offset lo hi hlen).mpr hnone]
    rfl
  · intro hsome2
    unfold binValue
    rw [if_neg (hsel hsome2)]
  · intro hsome hzero
    unfold binValue
    rw [if_neg (hsel hsome)]
    unfold nanmeanFlat
    rw [maskZeros_join_filterMap]
    have hj : ((selectRows field offset lo hi).map (sliceCols w.1 w.2)).join.filter
        (fun a => decide (¬ a = 0)) = [] := hzero
    rw [hj]
    rfl
  · intro nz hnz hne
    have hsome : ∃ o ∈ offset, lo ≤ o ∧ o < hi := by
      by_contra hnone
      push_neg at hnone
      have : selectRows field offset lo hi = [] :=
        (selectRows_eq_nil_iff field offset lo hi hlen).mpr (by
          intro o ho
          rintro ⟨h1, h2⟩
          exact absurd h2 (by simpa using hnone o ho h1))
      rw [hnz, this] at hne
      simp at hne
    unfold binValue
    rw [if_neg (hsel hsome)]
    unfold nanmeanFlat
    rw [maskZeros_join_filterMap, ← hnz]
    have hlen0 : nz.length ≠ 0 := fun h => hne (List.length_eq_zero.mp h)
    rw [if_neg hlen0]
    rfl

/-- Witness for C3: gather with traces `[1,2]`, `[0,0]`, `[3,0]` at offsets
`5, 15, 25`, window `[0, 1]`, bins of width 10 from `step_list = [0,10,20,30]`.
Bin `[0,10)` holds the non-zero trace → mean `3/2`; bin `[10,20)` holds the
all-zero trace → 0; bin `[30,40)` holds no trace → 0. -/
theorem C3_offset_bin_witness :
    (avoStorage [[1, 2], [0, 0], [3, 0]] [5, 15, 25] [0, 10, 20, 30]
        (0, 1) nanmeanFlat 3).getD 0 0
      = binValue [[1, 2], [0, 0], [3, 0]] [5, 15, 25] (0, 1) nanmeanFlat
          (([0, 10, 20, 30] : List ℚ).getD 0 0)
          (([0, 10, 20, 30] : List ℚ).getD 1 0) ∧
    binValue [[1, 2], [0, 0], [3, 0]] [5, 15, 25] (0, 1) nanmeanFlat 0 10
      = 3 / 2 ∧
    binValue [[1, 2], [0, 0], [3, 0]] [5, 15, 25] (0, 1) nanmeanFlat 10 20
      = 0 ∧
    binValue [[1, 2], [0, 0], [3, 0]] [5, 15, 25] (0, 1) nanmeanFlat 30 40
      = 0 := by
  refine ⟨?_, ?_, ?_, ?_⟩
  · exact (C3_offset_bin_zero_and_masking [[1, 2], [0, 0], [3, 0]] [5, 15, 25]
      (0, 1) nanmeanFlat [0, 10, 20, 30] 3 0 0 10 (by decide) (by decide)
      (by decide) (by decide)).1
  · rw [(C3_offset_bin_zero_and_masking [[1, 2], [0, 0], [3, 0]] [5, 15, 25]
      (0, 1) nanmeanFlat [0, 10, 20, 30] 3 0 0 10 (by decide) (by decide)
      (by decide) (by decide)).2.2.2.2 [1, 2] (by decide) (by decide)]
    norm_num [listMean]
  · exact (C3_offset_bin_zero_and_masking [[1, 2], [0, 0], [3, 0]] [5, 15, 25]
      (0, 1) nanmeanFlat [0, 10, 20, 30] 3 0 10 20 (by decide) (by decide)
      (by decide) (by decide)).2.2.2.1 ⟨15, by decide, by decide⟩ (by decide)
  · exact (C3_offset_bin_zero_and_masking [[1, 2], [0, 0], [3, 0]] [5, 15, 25]
      (0, 1) nanmeanFlat [0, 10, 20, 30] 3 0 30 40 (by decide) (by decide)
      (by decide) (by decide)).2.1 (by decide)

/-- C8: an invalid `avg_method` does raise a `ValueError`, but an invalid
entry in the `stats` list does not: the `else` branch constructs
`ValueError('Wrong stats type.')` without raising it, so the entry is
silently skipped (here: `['bogus']` yields no error and an empty diagnostic
list, and a bad entry between two good ones is simply dropped); the stats
loop can never surface an error at all. -/
theorem C8_stats_error_not_raised :
    (∃ msg, resolveAvgMethod (.named "bogus") = .error msg) ∧
    avoStatsNames [.named "bogus"] = .ok [] ∧
    avoStatsNames [.named "std", .named "bogus", .named "corr"]
      = .ok ["Mean std", "Corr"] ∧
    (∀ sts : List StatArg, ∃ l, avoStatsNames sts = .ok l) := by
  refine ⟨⟨"`avg_method` as src should be either 'mean' or callable", rfl⟩,
    rfl, rfl, ?_⟩
  intro sts
  induction sts with
  | nil => exact ⟨[], rfl⟩
  | cons st rest ih =>
    obtain ⟨l, hl⟩ := ih
    cases st with
    | named s =>
        by_cases h1 : s = "std"
        · exact ⟨"Mean std" :: l, by simp [avoStatsNames, h1, hl, Except.map]⟩
        · by_cases h2 : s = "corr"
          · exact ⟨"Corr" :: l, by simp [avoStatsNames, h1, h2, hl, Except.map]⟩
          · exact ⟨l, by simp [avoStatsNames, h1, h2, hl]⟩
    | callable f =>
        exact ⟨"Callable stat" :: l, by simp [avoStatsNames, hl, Except.map]⟩

/-- C9: running the per-gather offset-binning loop never mutates the input
amplitude matrix — the zero-to-NaN replacement is written through a view
into the boolean-mask *copy*, a fresh heap cell — and therefore binning the
same gather again with the same parameters reads identical input and
produces the identical per-bin value vector. -/
theorem C9_field_unmutated (h : Heap) (fid : ℕ) (offset : List ℚ)
    (w : ℕ × ℕ) (agg : Mat → Option ℚ) (bins : List (ℚ × ℚ))
    (hfid : fid < h.length) :
    heapGet ((avoLoopHeap h fid offset w agg bins).1) fid = heapGet h fid ∧
    (avoLoopHeap ((avoLoopHeap h fid offset w agg bins).1) fid offset w agg
        bins).2
      = (avoLoopHeap h fid offset w agg bins).2 := by
  have hfr := avoLoopHeap_frame bins h fid offset w agg hfid
  refine ⟨hfr.1, ?_⟩
  rw [avoLoopHeap_values _ _ _ _ _ _ (lt_of_lt_of_le hfid hfr.2),
    avoLoopHeap_values _ _ _ _ _ _ hfid, hfr.1]

/-- Witness for C9: a one-matrix heap holding the field `[[1, 0]]`; after
binning, the field cell still holds `[[1, 0]]` and a second run returns the
same values. -/
theorem C9_field_unmutated_witness :
    heapGet ((avoLoopHeap [[[some 1, some 0]]] 0 [5] (0, 1) nanmeanFlat
        [(0, 10)]).1) 0 = [[some (1 : ℚ), some 0]] ∧
    (avoLoopHeap ((avoLoopHeap [[[some 1, some 0]]] 0 [5] (0, 1) nanmeanFlat
        [(0, 10)]).1) 0 [5] (0, 1) nanmeanFlat [(0, 10)]).2
      = (avoLoopHeap [[[some 1, some 0]]] 0 [5] (0, 1) nanmeanFlat
          [(0, 10)]).2 := by
  have h := C9_field_unmutated [[[some (1 : ℚ), some 0]]] 0 [5] (0, 1)
    nanmeanFlat [(0, 10)] (by decide)
  exact ⟨h.1, h.2⟩

/-- C10: in the `std_plot` table, a bin row is retained iff the sum of its
values across gather rows is non-zero (so non-zero values cancelling to an
exact zero sum drop the whole bin), and among retained bins each zero cell
is additionally excluded: the code's index/repeat/where pipeline equals the
claim's filter description. -/
theorem C10_std_plot_table (resultsT : List (List ℚ)) (b : ℚ) (m : ℕ)
    (hrect : ∀ r ∈ resultsT, r.length = m) :
    stdPlotTable resultsT b m = stdPlotTableSpec resultsT b := by
  unfold stdPlotTable keptValues keptOffsets stdPlotTableSpec binKeptIdx
  refine table_blocks _ _ _ _ ?_
  intro i hi
  have hilt : i < resultsT.length := by
    simpa using (List.mem_filter.mp hi).1
  have hmem : resultsT.getD i [] ∈ resultsT := by
    rw [List.getD_eq_getElem?_getD, List.getElem?_eq_getElem hilt]
    exact List.getElem_mem hilt
  exact hrect _ hmem

/-- Witness for C10: gathers × bins matrix transposed to `[[1, -1], [2, 0]]`
(bin 0 values `1, -1`; bin 1 values `2, 0`), `bin_size = 10`: bin 0's values
cancel to sum 0 and the whole bin is dropped; bin 1 is kept and its zero cell
is dropped, leaving the single pair `(2, 10)`. -/
theorem C10_std_plot_table_witness :
    stdPlotTable [[1, -1], [2, 0]] 10 2 = [(2, 10)] := by
  rw [C10_std_plot_table [[1, -1], [2, 0]] 10 2 (by decide)]
  norm_num [stdPlotTableSpec, List.range_succ]

/-- C5: with `align_mean=True` every series is shifted additively so its
mean equals the global mean over all series, and the mean of the union of
the aligned values equals the mean of the original union. -/
theorem C5_mean_alignment (series : List (List ℚ)) :
    (∀ s ∈ series, s ≠ [] →
        listMean (s.map (fun v => v + (listMean series.join - listMean s)))
          = listMean series.join) ∧
    listMean (alignedSeries series).join = listMean series.join := by
  have hlen2 : ((alignedSeries series).join).length = series.join.length := by
    simp only [alignedSeries, List.length_join, List.map_map]
    congr 1
    exact List.map_congr_left (fun s _ => by simp [Function.comp])
  constructor
  · intro s _hs hne
    have hlen : ((s.length : ℚ)) ≠ 0 := by
      exact_mod_cast fun h => hne (List.length_eq_zero.mp h)
    rw [listMean_map_add, div_eq_iff hlen]
    linear_combination (-1 : ℚ) * length_mul_listMean s
  · have hsum : ((alignedSeries series).join).sum
        = listMean series.join * series.join.length := by
      show ((series.map (fun s =>
        s.map (fun v => v + (listMean series.join - listMean s)))).join).sum = _
      exact aligned_join_sum series _
    rcases eq_or_ne series.join.length 0 with hz | hz
    · have hj : series.join = [] := List.length_eq_zero.mp hz
      have haj : (alignedSeries series).join = [] :=
        List.length_eq_zero.mp (by rw [hlen2, hz])
      rw [hj, haj]
    · have hN : ((series.join.length : ℚ)) ≠ 0 := by exact_mod_cast hz
      rw [listMean_eq ((alignedSeries series).join), hsum, hlen2,
        mul_div_cancel_right₀ _ hN]

/-- Witness for C5 on the series `[1, 2]` and `[5]`: global mean `8/3`. -/
theorem C5_mean_alignment_witness :
    listMean (([1, 2] : List ℚ).map
        (fun v => v + (listMean ([[1, 2], [5]] : List (List ℚ)).join
          - listMean [1, 2])))
      = listMean ([[1, 2], [5]] : List (List ℚ)).join ∧
    listMean (alignedSeries [[1, 2], [5]]).join
      = listMean ([[1, 2], [5]] : List (List ℚ)).join :=
  ⟨(C5_mean_alignment [[1, 2], [5]]).1 [1, 2] (by decide) (by decide),
   (C5_mean_alignment [[1, 2], [5]]).2⟩

/-- C6: `linear_diff` fits `time ≈ slope·offset + intercept` with the
repeated-median (Siegel) estimator — the slope is the median over points of
the median of pairwise slopes, which differs from ordinary least squares on
outlier data — and returns the mean of `|offset·slope + intercept − time|`
and the mean of `|(offset − d)·slope|`, where `d` is the per-trace 3-D
source–receiver distance: the unique non-negative vector whose squares are
`(gx−sx)² + (gy−sy)² + (s_elev−g_elev)²`. -/
theorem C6_linear_diff_outputs (time offset gx gy sx sy se ge dist : List ℚ)
    (hdist : ∀ k, k < dist.length →
        0 ≤ dist.getD k 0 ∧
        (dist.getD k 0) ^ 2
          = (gx.getD k 0 - sx.getD k 0) ^ 2 + (gy.getD k 0 - sy.getD k 0) ^ 2
            + (se.getD k 0 - ge.getD k 0) ^ 2) :
    linear_diff time offset dist
      = (listMean ((offset.zip time).map (fun p =>
            |p.1 * (siegelslopes time offset).1
              + (siegelslopes time offset).2 - p.2|)),
         listMean ((offset.zip dist).map (fun p =>
            |(p.1 - p.2) * (siegelslopes time offset).1|))) ∧
    siegelslopes time offset
      = (median ((offset.zip time).map (fun p =>
            median (pairwiseSlopes (offset.zip time) p))),
         median ((offset.zip time).map (fun p =>
            p.2 - median ((offset.zip time).map (fun q =>
              median (pairwiseSlopes (offset.zip time) q))) * p.1))) ∧
    (∀ dist' : List ℚ, dist'.length = dist.length →
        (∀ k, k < dist'.length →
            0 ≤ dist'.getD k 0 ∧
            (dist'.getD k 0) ^ 2
              = (gx.getD k 0 - sx.getD k 0) ^ 2
                + (gy.getD k 0 - sy.getD k 0) ^ 2
                + (se.getD k 0 - ge.getD k 0) ^ 2) →
        dist' = dist) ∧
    (siegelslopes [0, 1, 2, 9] [0, 1, 2, 3]).1
      ≠ olsSlope [0, 1, 2, 9] [0, 1, 2, 3] := by
  refine ⟨rfl, rfl, ?_, ?_⟩
  · intro dist' hlen hchar
    refine List.ext_getElem hlen ?_
    intro k h1 h2
    obtain ⟨ha', hsq'⟩ := hchar k h1
    obtain ⟨ha, hsq⟩ := hdist k h2
    have hgd' : dist'.getD k 0 = dist'[k] := by
      rw [List.getD_eq_getElem?_getD, List.getElem?_eq_getElem h1]
      rfl
    have hgd : dist.getD k 0 = dist[k] := by
      rw [List.getD_eq_getElem?_getD, List.getElem?_eq_getElem h2]
      rfl
    rw [← hgd', ← hgd]
    have h2eq : (dist'.getD k 0) ^ 2 = (dist.getD k 0) ^ 2 := by
      rw [hsq', hsq]
    rcases sq_eq_sq_iff_eq_or_eq_neg.mp h2eq with h | h
    · exact h
    · linarith
  · have hs : siegelslopes [0, 1, 2, 9] [0, 1, 2, 3] = (1, 0) := by
      norm_num [siegelslopes, median, pairwiseSlopes, List.insertionSort,
        List.orderedInsert]
    have ho : olsSlope [0, 1, 2, 9] [0, 1, 2, 3] = 14 / 5 := by
      norm_num [olsSlope]
    rw [hs, ho]
    norm_num

/-- Witness for C6: times `[0,1,2,9]` at offsets `[0,1,2,3]` (outlier at the
last trace) with geometry differences `(1,2,2)` per trace, so the true
distance is `3` for every trace; the Siegel fit is `slope 1, intercept 0`,
the mean absolute residual is `3/2` and the mean elevation effect is `3/2`. -/
theorem C6_linear_diff_witness :
    linear_diff [0, 1, 2, 9] [0, 1, 2, 3] [3, 3, 3, 3] = (3 / 2, 3 / 2) := by
  have hd : ∀ k, k < ([3, 3, 3, 3] : List ℚ).length →
      0 ≤ (([3, 3, 3, 3] : List ℚ)).getD k 0 ∧
      ((([3, 3, 3, 3] : List ℚ)).getD k 0) ^ 2
        = (([1, 1, 1, 1] : List ℚ).getD k 0 - ([0, 0, 0, 0] : List ℚ).getD k 0) ^ 2
          + (([2, 2, 2, 2] : List ℚ).getD k 0 - ([0, 0, 0, 0] : List ℚ).getD k 0) ^ 2
          + (([2, 2, 2, 2] : List ℚ).getD k 0 - ([0, 0, 0, 0] : List ℚ).getD k 0) ^ 2 := by
    intro k hk
    have hk4 : k < 4 := by simpa using hk
    interval_cases k <;> norm_num [List.getD]
  have h := (C6_linear_diff_outputs [0, 1, 2, 9] [0, 1, 2, 3]
    [1, 1, 1, 1] [2, 2, 2, 2] [0, 0, 0, 0] [0, 0, 0, 0]
    [2, 2, 2, 2] [0, 0, 0, 0] [3, 3, 3, 3] hd).1
  rw [h, show siegelslopes [0, 1, 2, 9] [0, 1, 2, 3] = (1, 0) from by
    norm_num [siegelslopes, median, pairwiseSlopes, List.insertionSort,
      List.orderedInsert]]
  norm_num [listMean]

/-- C7: `MetricsMap.append` concatenates the two sample lists with no
re-deduplication; in particular appending two maps each built at coordinate
`(0, 0)` leaves two coexisting samples with that coordinate. -/
theorem C7_append_concatenates (a b : List (ℚ × ℚ × ℚ)) :
    appendMaps a b = a ++ b ∧
    (appendMaps (buildSamples [((0 : ℚ), 0)] [1]) (buildSamples [((0 : ℚ), 0)] [2])).map
        (fun s => (s.1, s.2.1)) = [((0 : ℚ), (0 : ℚ)), (0, 0)] := by
  exact ⟨rfl, by decide⟩

end SeismicPro
